import Mathlib

set_option maxRecDepth 200000

/-!
Verification of the manifest-update logic of `bin/chrome_update_manifest.py`.

Documents are modelled as `List Char` (byte-for-byte text).  The external
collaborators (the `.DEPS.git` reader and the XML manifest parser of
`cros_build_lib`) are modelled as explicit inputs: dependency mappings are
lists of `(relative path, project id)` pairs in dictionary iteration order,
and the XML parser is an abstract function from text to a list of
`(project name, optional path attribute)` pairs.
-/

/-- Whitespace set of Python's `str.strip()` and of the regex class `\s`
(space, tab, newline, carriage return, vertical tab, form feed). -/
def isPySpace (c : Char) : Bool :=
  c == ' ' || c == '\t' || c == '\n' || c == '\r' || c == Char.ofNat 11 || c == Char.ofNat 12

/-- Python `str.strip()`: remove whitespace from both ends. -/
def pyStrip (s : List Char) : List Char :=
  ((s.dropWhile isPySpace).reverse.dropWhile isPySpace).reverse

/-- The apostrophe character, used inside the marker texts. -/
def aposStr : String := String.mk [Char.ofNat 39]

/-- Common text of the `_BEGIN_MARKER` / `_END_MARKER` comments; `word` is
`BEGIN` or `END`. -/
def markerText (word : String) : String :=
  "<!-- @@@@ " ++ word ++ " AUTOGENERATED BROWSER PROJECTS - DON" ++ aposStr
    ++ "T MODIFY! @@@@ -->"

/-- `_BEGIN_MARKER` from the source (marker comment followed by two newlines). -/
def BEGIN_MARKER : List Char := (markerText "BEGIN").data ++ "\n\n".data

/-- `_END_MARKER` from the source. -/
def END_MARKER : List Char := (markerText "END").data ++ "\n\n".data

/-- `_BEGIN_MARKER.strip()` as used in the partitioning regex. -/
def beginMarkerCore : List Char := pyStrip BEGIN_MARKER

/-- `_END_MARKER.strip()` as used in the partitioning regex. -/
def endMarkerCore : List Char := pyStrip END_MARKER

/-- `_EXTERNAL_HEADER` from the source. -/
def EXTERNAL_HEADER : List Char :=
  ("  <!-- Begin Chromium (browser) projects -->\n  <!-- Hardcoded revision=\"refs/heads/master\" is intentional here -->\n\n").data

/-- `_CROS_HEADER` from the source. -/
def CROS_HEADER : List Char :=
  ("  <!-- Begin CrOS-specific Chromium (browser) projects -->\n  <!-- Hardcoded revision=\"refs/heads/master\" is intentional here -->\n\n").data

/-- `_INTERNAL_HEADER` from the source. -/
def INTERNAL_HEADER : List Char :=
  ("  <!-- Begin Chrome browser (PRIVATE) projects -->\n  <!-- Hardcoded revision=\"refs/heads/master\" is intentional here -->\n\n").data

/-- `_EXTERNAL_PROJECT % {'path': path, 'name': name}`: the rendered external
project template. -/
def EXTERNAL_PROJECT (path name : String) : List Char :=
  ("  <project path=\"" ++ path ++ "\"\n           name=\"" ++ name
    ++ "\"\n           revision=\"refs/heads/master\" />\n").data

/-- `_INTERNAL_PROJECT % {'path': path, 'name': name}`: the rendered internal
project template. -/
def INTERNAL_PROJECT (path name : String) : List Char :=
  ("  <project remote=\"cros-internal\"\n           path=\"" ++ path
    ++ "\"\n           name=\"" ++ name
    ++ "\"\n           revision=\"refs/heads/master\" />\n").data

/-- `_TEST_MANIFEST_TEMPLATE % {'content': content}`: wraps a snippet in a
minimal manifest root. -/
def TEST_MANIFEST_TEMPLATE (content : List Char) : List Char :=
  "<?xml version=\"1.0\" encoding=\"UTF-8\"?>\n<manifest>\n".data ++ content
    ++ "\n</manifest>".data

/-- True when the literal `m` occurs in `doc` starting at index `i`. -/
def matchesAt (m doc : List Char) (i : Nat) : Bool := m.isPrefixOf (doc.drop i)

/-- Largest index `i ≤ n` with `cond i = true`, if any. -/
def findLastSat (cond : Nat → Bool) : Nat → Option Nat
  | 0 => if cond 0 then some 0 else none
  | n + 1 => if cond (n + 1) then some (n + 1) else findLastSat cond n

/-- Shallow embedding of the `re.match` in `Manifest._PartitionManifest`:
pattern `(.*)(begin)(.*)(end)(.*)` under `re.DOTALL`.  All three `(.*)`
groups are greedy, so backtracking picks the LAST begin-marker occurrence
that still has an end-marker occurrence at or after its end, and then the
LAST end-marker occurrence; the match always spans the whole document. -/
def partitionAround (b e doc : List Char) : Option (List Char × List Char × List Char) :=
  match findLastSat (fun q => matchesAt e doc q) doc.length with
  | none => none
  | some qmax =>
    match findLastSat (fun p => matchesAt b doc p && decide (p + b.length ≤ qmax)) doc.length with
    | none => none
    | some p =>
      some (doc.take p, (doc.drop (p + b.length)).take (qmax - (p + b.length)),
            doc.drop (qmax + e.length))

/-- `Manifest._PartitionManifest` on the document's text: partition around the
stripped begin/end markers, or `none` for the `ManifestException` raise. -/
def partitionManifest (doc : List Char) : Option (List Char × List Char × List Char) :=
  partitionAround beginMarkerCore endMarkerCore doc

/-- Smallest index `i ≤ n` with `cond i = true`, if any (used only to state
the claim's first-occurrence reading of the partitioner for comparison). -/
def findFirstSat (cond : Nat → Bool) (bound : Nat) : Option Nat :=
  (List.range (bound + 1)).find? cond

/-- Comparison definition following the claim's words (NOT the source): split
around the FIRST occurrence of the begin marker and the FIRST occurrence of
the end marker at or after it. -/
def partitionAroundFirstOcc (b e doc : List Char) :
    Option (List Char × List Char × List Char) :=
  match findFirstSat (fun p => matchesAt b doc p) doc.length with
  | none => none
  | some p =>
    match findFirstSat (fun q => matchesAt e doc q && decide (p + b.length ≤ q)) doc.length with
    | none => none
    | some q =>
      some (doc.take p, (doc.drop (p + b.length)).take (q - (p + b.length)),
            doc.drop (q + e.length))

/-- First-occurrence reading of the partitioner with the real markers. -/
def partitionManifestFirstOcc (doc : List Char) : Option (List Char × List Char × List Char) :=
  partitionAroundFirstOcc beginMarkerCore endMarkerCore doc

/-- Index of the first character that is not `\s`-whitespace. -/
def firstNonSpace : List Char → Option Nat
  | [] => none
  | c :: rest => if isPySpace c then (firstNonSpace rest).map (· + 1) else some 0

/-- Positions where the `re.MULTILINE` anchor `^` matches: offset 0 or right
after a newline. -/
def isLineStart (s : List Char) (j : Nat) : Bool :=
  j == 0 || (s[j - 1]? == some '\n')

/-- Shallow embedding of `re.match(r'\s*(^\s*\S+.*)', bottom, re.S | re.M)`
followed by `.group(1)`: the greedy leading `\s*` backtracks to the start of
the line holding the first non-whitespace character, and group 1 (whose `.*`
matches newlines under `re.S`) extends to the end of the string.  When the
string has no non-whitespace character the pattern cannot match and the
Python code crashes on `None.group(1)`, modelled as `none`. -/
def stripLeadingBlankLines (s : List Char) : Option (List Char) :=
  match firstNonSpace s with
  | none => none
  | some f =>
    some (s.drop ((findLastSat (fun j => isLineStart s j && decide (j ≤ f)) f).getD 0))

/-- Byte-wise lexicographic comparison on char lists, the order Python 2 uses
for `str` comparison in `sorted`. -/
def charListLe : List Char → List Char → Bool
  | [], _ => true
  | _ :: _, [] => false
  | a :: as, b :: bs => if a < b then true else if b < a then false else charListLe as bs

/-- `a <= b` on strings, byte-wise. -/
def strLe (a b : String) : Bool := charListLe a.data b.data

/-- Python `s.startswith(p)`. -/
def strStartsWith (s p : String) : Bool := p.data.isPrefixOf s.data

/-- Stable insertion: place `x` before the first element it is `le`-equal or
`le`-smaller than, so that earlier list elements win ties. -/
def insertSorted (le : α → α → Bool) (x : α) : List α → List α
  | [] => [x]
  | y :: ys => if le x y then x :: y :: ys else y :: insertSorted le x ys

/-- Stable insertion sort (model of Python's stable `sorted`). -/
def insertionSort (le : α → α → Bool) : List α → List α
  | [] => []
  | x :: xs => insertSorted le x (insertionSort le xs)

/-- `sorted(mappings.items(), key=lambda mapping: mapping[1])`: stable sort of
the `(relative path, project id)` pairs by project id. -/
def sortMappings (mappings : List (String × String)) : List (String × String) :=
  insertionSort (fun m1 m2 => strLe m1.2 m2.2) mappings

/-- `os.path.join('chromium', rel)` for the path prefixing in the converter. -/
def osJoin (a b : String) : String := if strStartsWith b "/" then b else a ++ "/" ++ b

/-- The operator-visible warnings `ConvertDepsToManifest` can log via
`cros_lib.Warning` (the skip message also names the deps file; only the
project and path arguments are modelled). -/
inductive ConvWarning
  | skippedBlacklisted (project : String)
  | doubleCheckout (project : String) (path : String)
  deriving DecidableEq

/-- The loop body of `ConvertDepsToManifest`, one step per (already sorted)
mapping entry, threading the `previous_projects` set: blacklisted projects
are skipped with a warning, already-emitted projects are skipped with a
"double checkout" warning, and everything else is emitted as a
`(prefixed path, project)` entry and marked as seen. -/
def convertGo (blacklist : List String) :
    List (String × String) → List String → List (String × String) × List ConvWarning
  | [], _ => ([], [])
  | m :: rest, previous =>
    if blacklist.contains m.2 then
      ((convertGo blacklist rest previous).1,
       ConvWarning.skippedBlacklisted m.2 :: (convertGo blacklist rest previous).2)
    else if previous.contains m.2 then
      ((convertGo blacklist rest previous).1,
       ConvWarning.doubleCheckout m.2 (osJoin "chromium" m.1) :: (convertGo blacklist rest previous).2)
    else
      ((osJoin "chromium" m.1, m.2) :: (convertGo blacklist rest (m.2 :: previous)).1,
       (convertGo blacklist rest (m.2 :: previous)).2)

/-- The `(path, project)` entries `ConvertDepsToManifest` writes, in order,
together with the warnings it logs. -/
def convertEntries (blacklist : List String) (mappings : List (String × String)) :
    List (String × String) × List ConvWarning :=
  convertGo blacklist (sortMappings mappings) []

/-- Text written for a list of emitted entries under a project template. -/
def renderEntries (template : String → String → List Char)
    (entries : List (String × String)) : List Char :=
  (entries.map (fun en => template en.1 en.2)).flatten

/-- `ConvertDepsToManifest`: the manifest text written to the file object and
the warnings logged.  The mapping list stands for `mappings.items()` in
dictionary iteration order; parsing the deps file is external. -/
def convertDepsToManifest (template : String → String → List Char)
    (blacklist : List String) (mappings : List (String × String)) :
    List Char × List ConvWarning :=
  (renderEntries template (convertEntries blacklist mappings).1,
   (convertEntries blacklist mappings).2)

/-- The emitted entry the converter keeps for project id `P`: the rendering of
the first `P`-entry of the (sorted) list, or nothing when `P` never occurs. -/
def firstEmittedFor (P : String) (l : List (String × String)) : List (String × String) :=
  match l.filter (fun m => m.2 == P) with
  | [] => []
  | m :: _ => [(osJoin "chromium" m.1, P)]

/-- Fatal conditions of the update: the `ManifestException` raises and the
`AttributeError` crash of the final rewrite step. -/
inductive ManifestError
  | markersNotFound
  | nonChromeProject (project : String)
  | stripRegexNoMatch
  deriving DecidableEq

/-- Projects as returned by the external `cros_lib.ManifestHandler` parser:
project name together with its optional `path` attribute. -/
abbrev ParsedProjects := List (String × Option String)

/-- The external XML manifest parser, passed in as an abstract function. -/
abbrev ParseFn := List Char → ParsedProjects

/-- `CheckForNonChromeProjects` applied to the parsed projects of the wrapped
snippet: raise for the first project whose `path` attribute (defaulting to
the empty string, as `attributes.get('path', '')` does) does not start with
`chromium/`. -/
def checkForNonChromeProjects (projects : ParsedProjects) : Except ManifestError Unit :=
  match projects.find? (fun pr => !(strStartsWith (pr.2.getD "") "chromium/")) with
  | some pr => Except.error (ManifestError.nonChromeProject pr.1)
  | none => Except.ok ()

/-- `GetListOfProjects`: the project names of a parsed snippet. -/
def getListOfProjects (projects : ParsedProjects) : List String := projects.map Prod.fst

/-- The dependency mappings `CreateNewManifest` reads through the external
deps reader: `.DEPS.git`, `tools/cros.DEPS/DEPS` and the internal
`.DEPS.git`, each as `(relative path, project id)` pairs. -/
structure DepsInputs where
  externalMappings : List (String × String)
  crosMappings : List (String × String)
  internalMappings : List (String × String)
  deriving DecidableEq

/-- Bytes `CreateNewManifest` writes strictly between the two markers: the
external header and hardcoded `chromium/src` entry, the converted `.DEPS.git`
entries, the CrOS section converted under a blacklist of projects already
present in the untouched document parts, and (for internal manifests) the
private section. -/
def genMiddle (parse : ParseFn) (topPart bottomPart : List Char) (deps : DepsInputs)
    (internal : Bool) : List Char :=
  EXTERNAL_HEADER
  ++ EXTERNAL_PROJECT "chromium/src" "chromium/src"
  ++ (convertDepsToManifest EXTERNAL_PROJECT [] deps.externalMappings).1
  ++ "\n".data
  ++ CROS_HEADER
  ++ (convertDepsToManifest EXTERNAL_PROJECT
        (getListOfProjects (parse (topPart ++ bottomPart))) deps.crosMappings).1
  ++ "\n".data
  ++ (if internal then
        INTERNAL_HEADER
        ++ INTERNAL_PROJECT "chromium/src-internal" "chrome/src-internal"
        ++ (convertDepsToManifest INTERNAL_PROJECT [] deps.internalMappings).1
        ++ "\n".data
      else [])

/-- `Manifest.CreateNewManifest`: returns the bytes written to the staging
file before any failure, paired with the outcome.  Partition failure and the
safety-check raise happen before the staging file is opened, so they leave
the written bytes empty; the final-rewrite crash happens after everything up
to the end marker has been written. -/
def createNewManifest (parse : ParseFn) (doc : List Char) (deps : DepsInputs)
    (internal : Bool) : List Char × Except ManifestError (List Char) :=
  match partitionManifest doc with
  | none => ([], Except.error ManifestError.markersNotFound)
  | some (topPart, overwritten, bottomPart) =>
    match checkForNonChromeProjects (parse (TEST_MANIFEST_TEMPLATE overwritten)) with
    | Except.error err => ([], Except.error err)
    | Except.ok _ =>
      match stripLeadingBlankLines bottomPart with
      | none =>
        (topPart ++ (BEGIN_MARKER ++ genMiddle parse topPart bottomPart deps internal
           ++ END_MARKER),
         Except.error ManifestError.stripRegexNoMatch)
      | some stripped =>
        (topPart ++ (BEGIN_MARKER ++ genMiddle parse topPart bottomPart deps internal
           ++ END_MARKER) ++ stripped,
         Except.ok (topPart ++ (BEGIN_MARKER
           ++ genMiddle parse topPart bottomPart deps internal ++ END_MARKER) ++ stripped))

/-- `Manifest.IsNewManifestDifferent`: `filecmp.cmp(new, old, shallow=False)`
is a byte comparison, negated. -/
def isNewManifestDifferent (staged live : List Char) : Bool := !(staged == live)

/-- The externally visible operations `PerformUpdate` can trigger after a
successful generation. -/
inductive UpdateAction
  | trialSync
  | push
  deriving DecidableEq

/-- `Manifest.PerformUpdate`: generate the staged manifest; on success, run
the trial checkout and push only when the staged document differs from the
live one.  Returns the invoked actions in order and the outcome. -/
def performUpdate (parse : ParseFn) (doc : List Char) (deps : DepsInputs)
    (internal : Bool) : List UpdateAction × Except ManifestError Unit :=
  match (createNewManifest parse doc deps internal).2 with
  | Except.error e => ([], Except.error e)
  | Except.ok staged =>
    if isNewManifestDifferent staged doc then
      ([UpdateAction.trialSync, UpdateAction.push], Except.ok ())
    else ([], Except.ok ())

/-- Warning selector: is this a "double checkout" warning about project `P`? -/
def isDoubleCheckoutFor (P : String) : ConvWarning → Bool
  | ConvWarning.doubleCheckout q _ => q == P
  | _ => false

/-- A well-formed sample manifest: one begin marker, one end marker, and
human-edited text around them. -/
def sampleManifest : List Char :=
  "top\n".data ++ beginMarkerCore ++ "\nmid\n".data ++ endMarkerCore ++ "\nbottom\n".data

/-- A manifest holding TWO begin markers and TWO end markers, interleaved so
that the first-occurrence and last-occurrence readings of the partitioner
disagree. -/
def doubleMarkerManifest : List Char :=
  beginMarkerCore ++ "X".data ++ beginMarkerCore ++ "Y".data ++ endMarkerCore
    ++ "Z".data ++ endMarkerCore ++ "W".data

/-- A manifest whose text after the end marker is entirely whitespace. -/
def allBlankTailManifest : List Char :=
  "top\n".data ++ beginMarkerCore ++ "m".data ++ endMarkerCore ++ "\n\n".data

/-- A parser stub returning no projects (safety check trivially passes and the
CrOS blacklist is empty). -/
def emptyParse : ParseFn := fun _ => []

/-- Seed manifest used to build a fixed point of the builder. -/
def noopSeedManifest : List Char :=
  "seed\n".data ++ beginMarkerCore ++ "x".data ++ endMarkerCore ++ "\ntail here\n".data

/-- A live manifest that regenerates to itself: the builder's output on the
seed manifest (running the builder on it again is a byte-for-byte no-op). -/
def noopManifest : List Char :=
  ((createNewManifest emptyParse noopSeedManifest ⟨[], [], []⟩ false).2).toOption.getD []

/-! ### Properties of `findLastSat` -/

theorem findLastSat_sat {cond : Nat → Bool} {n i : Nat}
    (h : findLastSat cond n = some i) : cond i = true ∧ i ≤ n := by
  induction n with
  | zero =>
    simp only [findLastSat] at h
    split at h
    · cases h; exact ⟨by assumption, Nat.le_refl 0⟩
    · cases h
  | succ n ih =>
    simp only [findLastSat] at h
    split at h
    · cases h; exact ⟨by assumption, Nat.le_refl _⟩
    · rcases ih h with ⟨h1, h2⟩
      exact ⟨h1, Nat.le_succ_of_le h2⟩

theorem findLastSat_max {cond : Nat → Bool} {n i : Nat}
    (h : findLastSat cond n = some i) {j : Nat} (hj : j ≤ n) (hc : cond j = true) :
    j ≤ i := by
  induction n with
  | zero => exact (Nat.le_zero.mp hj) ▸ Nat.zero_le i
  | succ n ih =>
    simp only [findLastSat] at h
    split at h
    · cases h; exact hj
    · rcases Nat.lt_or_ge j (n + 1) with hlt | hge
      · exact ih h (Nat.lt_succ_iff.mp hlt)
      · exfalso
        have hjn : j = n + 1 := Nat.le_antisymm hj hge
        rename_i hcond
        rw [hjn] at hc
        exact hcond hc

theorem findLastSat_none {cond : Nat → Bool} {n : Nat}
    (h : findLastSat cond n = none) {j : Nat} (hj : j ≤ n) : cond j = false := by
  induction n with
  | zero =>
    simp only [findLastSat] at h
    split at h
    · cases h
    · rw [Nat.le_zero.mp hj]
      rename_i hcond
      exact Bool.not_eq_true _ ▸ Bool.of_not_eq_true hcond
  | succ n ih =>
    simp only [findLastSat] at h
    split at h
    · cases h
    · rcases Nat.lt_or_ge j (n + 1) with hlt | hge
      · exact ih h (Nat.lt_succ_iff.mp hlt)
      · have hjn : j = n + 1 := Nat.le_antisymm hj hge
        rename_i hcond
        rw [hjn]
        exact Bool.of_not_eq_true hcond

/-! ### Properties of `matchesAt` -/

theorem matchesAt_drop_eq {m doc : List Char} {i : Nat} (h : matchesAt m doc i = true) :
    doc.drop i = m ++ doc.drop (i + m.length) := by
  obtain ⟨t, ht⟩ := List.isPrefixOf_iff_prefix.mp h
  have h2 : doc.drop (i + m.length) = t := by
    rw [← List.drop_drop, ← ht, List.drop_left]
  rw [h2, ht]

theorem le_length_of_matchesAt {m doc : List Char} {i : Nat} (hm : m ≠ [])
    (h : matchesAt m doc i = true) : i ≤ doc.length ∧ i + m.length ≤ doc.length := by
  have hp := (List.isPrefixOf_iff_prefix.mp h).length_le
  rw [List.length_drop] at hp
  have hm' : 0 < m.length := List.length_pos.mpr hm
  omega

theorem matchesAt_eq_false_of_short {m doc : List Char} (h : doc.length < m.length)
    (i : Nat) : matchesAt m doc i = false := by
  cases hb : matchesAt m doc i
  · rfl
  · exfalso
    have hp := (List.isPrefixOf_iff_prefix.mp hb).length_le
    rw [List.length_drop] at hp
    omega

/-! ### Characterization of the partitioner -/

theorem partitionAround_elim {b e doc pre body suf : List Char}
    (h : partitionAround b e doc = some (pre, body, suf)) :
    ∃ p q, findLastSat (fun j => matchesAt e doc j) doc.length = some q ∧
      findLastSat (fun i => matchesAt b doc i && decide (i + b.length ≤ q)) doc.length = some p ∧
      pre = doc.take p ∧ body = (doc.drop (p + b.length)).take (q - (p + b.length)) ∧
      suf = doc.drop (q + e.length) := by
  unfold partitionAround at h
  split at h
  · cases h
  · rename_i qmax hq
    split at h
    · cases h
    · rename_i p hp
      simp only [Option.some.injEq, Prod.mk.injEq] at h
      exact ⟨p, qmax, hq, hp, h.1.symm, h.2.1.symm, h.2.2.symm⟩

theorem partitionAround_spec {b e doc pre body suf : List Char} (hb : b ≠ []) (he : e ≠ [])
    (h : partitionAround b e doc = some (pre, body, suf)) :
    doc = pre ++ b ++ body ++ e ++ suf ∧
    matchesAt b doc pre.length = true ∧
    matchesAt e doc (pre.length + b.length + body.length) = true ∧
    (∀ j, matchesAt e doc j = true → j ≤ pre.length + b.length + body.length) ∧
    (∀ i, matchesAt b doc i = true →
      (∃ j, matchesAt e doc j = true ∧ i + b.length ≤ j) → i ≤ pre.length) := by
  obtain ⟨p, q, hq, hp, hpre, hbody, hsuf⟩ := partitionAround_elim h
  obtain ⟨hpcond, hplen⟩ := findLastSat_sat hp
  rw [Bool.and_eq_true, decide_eq_true_eq] at hpcond
  obtain ⟨hpmatch, hpq⟩ := hpcond
  obtain ⟨hqcond, hqlen⟩ := findLastSat_sat hq
  have hqdoc := le_length_of_matchesAt he hqcond
  have hpdoc := le_length_of_matchesAt hb hpmatch
  have hprelen : pre.length = p := by
    rw [hpre, List.length_take]
    omega
  have hbodylen : body.length = q - (p + b.length) := by
    rw [hbody, List.length_take, List.length_drop]
    omega
  have hqeq : pre.length + b.length + body.length = q := by omega
  refine ⟨?_, ?_, ?_, ?_, ?_⟩
  · have step1 : doc.drop p = b ++ doc.drop (p + b.length) := matchesAt_drop_eq hpmatch
    have step2 : doc.drop (p + b.length) = body ++ doc.drop q := by
      have hto : body ++ (doc.drop (p + b.length)).drop (q - (p + b.length)) =
          doc.drop (p + b.length) := by
        rw [hbody]; exact List.take_append_drop _ _
      have hdd : (doc.drop (p + b.length)).drop (q - (p + b.length)) = doc.drop q := by
        rw [List.drop_drop]
        congr 1
        omega
      rw [hdd] at hto
      exact hto.symm
    have step3 : doc.drop q = e ++ doc.drop (q + e.length) := matchesAt_drop_eq hqcond
    calc doc = doc.take p ++ doc.drop p := (List.take_append_drop p doc).symm
      _ = pre ++ (b ++ (body ++ (e ++ suf))) := by
          rw [step1, step2, step3, ← hpre, ← hsuf]
      _ = pre ++ b ++ body ++ e ++ suf := by simp [List.append_assoc]
  · rw [hprelen]; exact hpmatch
  · rw [hqeq]; exact hqcond
  · intro j hj
    rw [hqeq]
    exact findLastSat_max hq (le_length_of_matchesAt he hj).1 hj
  · intro i hi ⟨j, hje, hij⟩
    rw [hprelen]
    have hjq : j ≤ q := findLastSat_max hq (le_length_of_matchesAt he hje).1 hje
    apply findLastSat_max hp (le_length_of_matchesAt hb hi).1
    rw [Bool.and_eq_true, decide_eq_true_eq]
    exact ⟨hi, by omega⟩

theorem partitionAround_eq_none {b e doc : List Char}
    (h : ∀ i j, matchesAt b doc i = true → matchesAt e doc j = true →
      i + b.length ≤ j → False) :
    partitionAround b e doc = none := by
  unfold partitionAround
  split
  · rfl
  · rename_i qmax hq
    split
    · rfl
    · rename_i p hp
      exfalso
      obtain ⟨hc, _⟩ := findLastSat_sat hp
      rw [Bool.and_eq_true, decide_eq_true_eq] at hc
      exact h p qmax hc.1 (findLastSat_sat hq).1 hc.2

theorem beginMarkerCore_ne_nil : beginMarkerCore ≠ [] := by decide

theorem endMarkerCore_ne_nil : endMarkerCore ≠ [] := by decide

/-! ### Properties of the leading-blank-line strip -/

theorem firstNonSpace_take_all {s : List Char} {f : Nat} (h : firstNonSpace s = some f) :
    (s.take f).all isPySpace = true := by
  induction s generalizing f with
  | nil => cases h
  | cons c rest ih =>
    simp only [firstNonSpace] at h
    split at h
    · cases hr : firstNonSpace rest with
      | none => rw [hr] at h; cases h
      | some g =>
        rw [hr] at h
        simp only [Option.map_some', Option.some.injEq] at h
        rw [← h]
        simp only [List.take_succ_cons, List.all_cons, Bool.and_eq_true]
        exact ⟨by assumption, ih hr⟩
    · simp only [Option.some.injEq] at h
      rw [← h]
      rfl

theorem firstNonSpace_eq_none {s : List Char} (h : s.all isPySpace = true) :
    firstNonSpace s = none := by
  induction s with
  | nil => rfl
  | cons c rest ih =>
    simp only [List.all_cons, Bool.and_eq_true] at h
    simp only [firstNonSpace, h.1, if_true, ih h.2, Option.map_none']

theorem stripLeadingBlankLines_spec {s t : List Char}
    (h : stripLeadingBlankLines s = some t) :
    ∃ w, s = w ++ t ∧ w.all isPySpace = true := by
  unfold stripLeadingBlankLines at h
  split at h
  · cases h
  · rename_i f hf
    simp only [Option.some.injEq] at h
    set j := (findLastSat (fun j => isLineStart s j && decide (j ≤ f)) f).getD 0 with hj
    have hjf : j ≤ f := by
      rw [hj]
      cases hfl : findLastSat (fun j => isLineStart s j && decide (j ≤ f)) f with
      | none => exact Nat.zero_le f
      | some j0 => exact (findLastSat_sat hfl).2
    refine ⟨s.take j, ?_, ?_⟩
    · rw [← h]
      exact (List.take_append_drop j s).symm
    · have hall := firstNonSpace_take_all hf
      have hsub : s.take j = (s.take f).take j := by
        rw [List.take_take, Nat.min_eq_left hjf]
      rw [List.all_eq_true] at hall ⊢
      intro x hx
      rw [hsub] at hx
      exact hall x (List.take_subset j (s.take f) hx)

theorem stripLeadingBlankLines_eq_none {s : List Char} (h : s.all isPySpace = true) :
    stripLeadingBlankLines s = none := by
  unfold stripLeadingBlankLines
  rw [firstNonSpace_eq_none h]

/-! ### Claim C1: partitioner round-trip -/

/-- C1: whenever the partitioning pattern matches and `_PartitionManifest`
returns the three parts `(pre, body, suf)`, concatenating them back with the
marker strings as they occur in the document (the stripped markers the regex
matched) reconstructs the original document byte for byte. -/
theorem partition_roundtrip (doc pre body suf : List Char)
    (h : partitionManifest doc = some (pre, body, suf)) :
    pre ++ beginMarkerCore ++ body ++ endMarkerCore ++ suf = doc :=
  ((partitionAround_spec beginMarkerCore_ne_nil endMarkerCore_ne_nil h).1).symm

/-- Witness for C1 at a concrete manifest with one marker pair. -/
theorem partition_roundtrip_witness :
    partitionManifest sampleManifest =
      some ("top\n".data, "\nmid\n".data, "\nbottom\n".data) ∧
    "top\n".data ++ beginMarkerCore ++ "\nmid\n".data ++ endMarkerCore ++ "\nbottom\n".data =
      sampleManifest :=
  ⟨by decide, partition_roundtrip sampleManifest _ _ _ (by decide)⟩

/-! ### Claim C7: which occurrences the partitioner splits around -/

/-- C7 counterexample: on a document with two begin and two end markers the
partitioner does NOT split around the first begin marker and the first end
marker after it; it splits around the last begin marker and the last end
marker (the regex groups are greedy). -/
theorem partitioner_first_occurrence_counterexample :
    partitionManifest doubleMarkerManifest =
      some (beginMarkerCore ++ "X".data,
            "Y".data ++ endMarkerCore ++ "Z".data, "W".data) ∧
    partitionManifestFirstOcc doubleMarkerManifest =
      some ([], "X".data ++ beginMarkerCore ++ "Y".data,
            "Z".data ++ endMarkerCore ++ "W".data) ∧
    partitionManifest doubleMarkerManifest ≠ partitionManifestFirstOcc doubleMarkerManifest := by
  refine ⟨by decide, by decide, ?_⟩
  decide

/-- C7 (amended): for every manifest document, the partitioner splits around
the LAST occurrence of the begin marker that still has an end-marker
occurrence at or after its end, and the LAST occurrence of the end marker;
it returns everything before that begin, everything strictly between, and
everything after that end. -/
theorem partitioner_splits_at_last_occurrences (doc pre body suf : List Char)
    (h : partitionManifest doc = some (pre, body, suf)) :
    matchesAt beginMarkerCore doc pre.length = true ∧
    matchesAt endMarkerCore doc (pre.length + beginMarkerCore.length + body.length) = true ∧
    (∀ j, matchesAt endMarkerCore doc j = true →
      j ≤ pre.length + beginMarkerCore.length + body.length) ∧
    (∀ i, matchesAt beginMarkerCore doc i = true →
      (∃ j, matchesAt endMarkerCore doc j = true ∧ i + beginMarkerCore.length ≤ j) →
      i ≤ pre.length) ∧
    doc = pre ++ beginMarkerCore ++ body ++ endMarkerCore ++ suf := by
  have hs := partitionAround_spec beginMarkerCore_ne_nil endMarkerCore_ne_nil h
  exact ⟨hs.2.1, hs.2.2.1, hs.2.2.2.1, hs.2.2.2.2, hs.1⟩

/-- Witness for the amended C7 on the two-marker document. -/
theorem partitioner_splits_at_last_occurrences_witness :
    matchesAt beginMarkerCore doubleMarkerManifest (beginMarkerCore ++ "X".data).length = true ∧
    matchesAt endMarkerCore doubleMarkerManifest
      ((beginMarkerCore ++ "X".data).length + beginMarkerCore.length
        + ("Y".data ++ endMarkerCore ++ "Z".data).length) = true ∧
    (∀ j, matchesAt endMarkerCore doubleMarkerManifest j = true →
      j ≤ (beginMarkerCore ++ "X".data).length + beginMarkerCore.length
        + ("Y".data ++ endMarkerCore ++ "Z".data).length) ∧
    (∀ i, matchesAt beginMarkerCore doubleMarkerManifest i = true →
      (∃ j, matchesAt endMarkerCore doubleMarkerManifest j = true ∧
        i + beginMarkerCore.length ≤ j) →
      i ≤ (beginMarkerCore ++ "X".data).length) ∧
    doubleMarkerManifest = (beginMarkerCore ++ "X".data) ++ beginMarkerCore
      ++ ("Y".data ++ endMarkerCore ++ "Z".data) ++ endMarkerCore ++ "W".data :=
  partitioner_splits_at_last_occurrences doubleMarkerManifest
    (beginMarkerCore ++ "X".data) ("Y".data ++ endMarkerCore ++ "Z".data) "W".data
    (by decide)

/-! ### Claim C8: partitioner failure -/

/-- C8: when the begin marker is missing, the end marker is missing, or every
end-marker occurrence precedes every begin-marker occurrence, the
partitioner raises the markers-not-found `ManifestException` instead of
returning a partition, and `CreateNewManifest` writes nothing to the staged
manifest in that run. -/
theorem partitioner_failure_raises (doc : List Char)
    (h : (∀ i, matchesAt beginMarkerCore doc i = false) ∨
         (∀ j, matchesAt endMarkerCore doc j = false) ∨
         (∀ i j, matchesAt beginMarkerCore doc i = true →
           matchesAt endMarkerCore doc j = true → j < i)) :
    partitionManifest doc = none ∧
    ∀ parse deps internal, createNewManifest parse doc deps internal =
      ([], Except.error ManifestError.markersNotFound) := by
  have hnone : partitionManifest doc = none := by
    apply partitionAround_eq_none
    intro i j hbi hej hle
    rcases h with h1 | h2 | h3
    · rw [h1 i] at hbi; cases hbi
    · rw [h2 j] at hej; cases hej
    · have := h3 i j hbi hej
      omega
  refine ⟨hnone, ?_⟩
  intro parse deps internal
  unfold createNewManifest
  rw [hnone]

/-- Witness for C8 on a document holding no markers at all. -/
theorem partitioner_failure_raises_witness :
    partitionManifest "no markers here".data = none ∧
    createNewManifest emptyParse "no markers here".data ⟨[], [], []⟩ false =
      ([], Except.error ManifestError.markersNotFound) := by
  have h := partitioner_failure_raises "no markers here".data
    (Or.inl (fun i => matchesAt_eq_false_of_short (by decide) i))
  exact ⟨h.1, h.2 emptyParse ⟨[], [], []⟩ false⟩

/-! ### Claim C5: frame preservation of the builder -/

/-- C5: when the markers partition the live manifest into
`(pre, body, suf)`, the safety check passes and the suffix survives the
final rewrite, the staged document is exactly the untouched prefix, the
regenerated marker-delimited region, and the suffix with its leading blank
lines stripped: the stripped suffix is a tail of the original suffix and
the removed part is pure whitespace. -/
theorem builder_frame_preservation (parse : ParseFn) (doc : List Char) (deps : DepsInputs)
    (internal : Bool) (pre body suf suf2 : List Char)
    (hpart : partitionManifest doc = some (pre, body, suf))
    (hcheck : checkForNonChromeProjects (parse (TEST_MANIFEST_TEMPLATE body)) = Except.ok ())
    (hstrip : stripLeadingBlankLines suf = some suf2) :
    createNewManifest parse doc deps internal =
      (pre ++ (BEGIN_MARKER ++ genMiddle parse pre suf deps internal ++ END_MARKER) ++ suf2,
       Except.ok (pre ++ (BEGIN_MARKER ++ genMiddle parse pre suf deps internal
         ++ END_MARKER) ++ suf2)) ∧
    ∃ w, suf = w ++ suf2 ∧ w.all isPySpace = true := by
  constructor
  · simp only [createNewManifest, hpart, hcheck, hstrip]
  · exact stripLeadingBlankLines_spec hstrip

/-- Witness for C5 on the sample manifest with an empty parser stub. -/
theorem builder_frame_preservation_witness :
    createNewManifest emptyParse sampleManifest ⟨[], [], []⟩ false =
      ("top\n".data ++ (BEGIN_MARKER
         ++ genMiddle emptyParse "top\n".data "\nbottom\n".data ⟨[], [], []⟩ false
         ++ END_MARKER) ++ "bottom\n".data,
       Except.ok ("top\n".data ++ (BEGIN_MARKER
         ++ genMiddle emptyParse "top\n".data "\nbottom\n".data ⟨[], [], []⟩ false
         ++ END_MARKER) ++ "bottom\n".data)) ∧
    ∃ w, "\nbottom\n".data = w ++ "bottom\n".data ∧ w.all isPySpace = true :=
  builder_frame_preservation emptyParse sampleManifest ⟨[], [], []⟩ false
    "top\n".data "\nmid\n".data "\nbottom\n".data "bottom\n".data
    (by decide) rfl (by decide)

/-! ### Claim C2: the safety check -/

theorem checkForNonChromeProjects_eq_error {projects : ParsedProjects}
    {pr : String × Option String}
    (hfind : projects.find? (fun x => !(strStartsWith (x.2.getD "") "chromium/")) = some pr) :
    checkForNonChromeProjects projects = Except.error (ManifestError.nonChromeProject pr.1) := by
  unfold checkForNonChromeProjects
  rw [hfind]

theorem checkForNonChromeProjects_elim {projects : ParsedProjects} {err : ManifestError}
    (h : checkForNonChromeProjects projects = Except.error err) :
    ∃ pr, projects.find? (fun x => !(strStartsWith (x.2.getD "") "chromium/")) = some pr ∧
      err = ManifestError.nonChromeProject pr.1 := by
  unfold checkForNonChromeProjects at h
  split at h
  · rename_i pr hfind
    cases h
    exact ⟨pr, hfind, rfl⟩
  · cases h

/-- C2: given the to-be-replaced region re-wrapped in the minimal manifest
root, the checker raises the "about to be accidentally removed" error if and
only if some parsed project of that region has a `path` attribute (defaulting
to the empty string, as `attributes.get('path', '')` does) that does not
start with `chromium/`; and whenever it raises, `CreateNewManifest` stops
with that error having written nothing to the staged manifest file. -/
theorem safety_check_iff_and_aborts (parse : ParseFn) (doc : List Char) (deps : DepsInputs)
    (internal : Bool) (pre body suf : List Char)
    (hpart : partitionManifest doc = some (pre, body, suf)) :
    ((∃ pr ∈ parse (TEST_MANIFEST_TEMPLATE body),
        strStartsWith (pr.2.getD "") "chromium/" = false) ↔
      (∃ name, checkForNonChromeProjects (parse (TEST_MANIFEST_TEMPLATE body)) =
        Except.error (ManifestError.nonChromeProject name))) ∧
    ∀ err, checkForNonChromeProjects (parse (TEST_MANIFEST_TEMPLATE body)) =
        Except.error err →
      createNewManifest parse doc deps internal = ([], Except.error err) := by
  constructor
  · constructor
    · rintro ⟨pr, hmem, hbad⟩
      cases hfind : (parse (TEST_MANIFEST_TEMPLATE body)).find?
          (fun x => !(strStartsWith (x.2.getD "") "chromium/")) with
      | none =>
        exfalso
        have hnone := List.find?_eq_none.mp hfind pr hmem
        apply hnone
        rw [hbad]
        rfl
      | some pr0 =>
        exact ⟨pr0.1, checkForNonChromeProjects_eq_error hfind⟩
    · rintro ⟨name, herr⟩
      obtain ⟨pr, hfind, _⟩ := checkForNonChromeProjects_elim herr
      refine ⟨pr, List.mem_of_find?_eq_some hfind, ?_⟩
      have hp := List.find?_some hfind
      rwa [Bool.not_eq_true'] at hp
  · intro err herr
    simp only [createNewManifest, hpart, herr]

/-- Witness for C2: a parser stub reporting one project with a non-chromium
path inside the region. -/
theorem safety_check_iff_and_aborts_witness :
    ((∃ pr ∈ (fun _ => [("extra/proj", some "foreign/path")] : ParseFn)
        (TEST_MANIFEST_TEMPLATE "\nmid\n".data),
        strStartsWith (pr.2.getD "") "chromium/" = false) ↔
      (∃ name, checkForNonChromeProjects
          ((fun _ => [("extra/proj", some "foreign/path")] : ParseFn)
            (TEST_MANIFEST_TEMPLATE "\nmid\n".data)) =
        Except.error (ManifestError.nonChromeProject name))) ∧
    ∀ err, checkForNonChromeProjects
        ((fun _ => [("extra/proj", some "foreign/path")] : ParseFn)
          (TEST_MANIFEST_TEMPLATE "\nmid\n".data)) =
        Except.error err →
      createNewManifest (fun _ => [("extra/proj", some "foreign/path")])
        sampleManifest ⟨[], [], []⟩ false = ([], Except.error err) :=
  safety_check_iff_and_aborts (fun _ => [("extra/proj", some "foreign/path")])
    sampleManifest ⟨[], [], []⟩ false "top\n".data "\nmid\n".data "\nbottom\n".data
    (by decide)

/-! ### Claim C10: crash of the final rewrite on an all-whitespace suffix -/

/-- C10: when the text after the end marker is entirely whitespace (or
empty), the strip regex has no match, so the builder crashes on
`None.group(1)` after the prefix, the markers and the regenerated region
have already been written to the staged file, which is left non-empty and
without the suffix. -/
theorem strip_crash_after_partial_write (parse : ParseFn) (doc : List Char)
    (deps : DepsInputs) (internal : Bool) (pre body suf : List Char)
    (hpart : partitionManifest doc = some (pre, body, suf))
    (hcheck : checkForNonChromeProjects (parse (TEST_MANIFEST_TEMPLATE body)) = Except.ok ())
    (hws : suf.all isPySpace = true) :
    stripLeadingBlankLines suf = none ∧
    createNewManifest parse doc deps internal =
      (pre ++ (BEGIN_MARKER ++ genMiddle parse pre suf deps internal ++ END_MARKER),
       Except.error ManifestError.stripRegexNoMatch) ∧
    pre ++ (BEGIN_MARKER ++ genMiddle parse pre suf deps internal ++ END_MARKER) ≠ [] := by
  have hstrip := stripLeadingBlankLines_eq_none hws
  refine ⟨hstrip, ?_, ?_⟩
  · simp only [createNewManifest, hpart, hcheck, hstrip]
  · intro hnil
    have hlen := congrArg List.length hnil
    simp only [List.length_append, List.length_nil] at hlen
    have hB : 0 < BEGIN_MARKER.length := by decide
    omega

/-- Witness for C10 on a manifest whose text after the end marker is two
newlines. -/
theorem strip_crash_after_partial_write_witness :
    stripLeadingBlankLines "\n\n".data = none ∧
    createNewManifest emptyParse allBlankTailManifest ⟨[], [], []⟩ false =
      ("top\n".data ++ (BEGIN_MARKER
         ++ genMiddle emptyParse "top\n".data "\n\n".data ⟨[], [], []⟩ false ++ END_MARKER),
       Except.error ManifestError.stripRegexNoMatch) ∧
    "top\n".data ++ (BEGIN_MARKER
      ++ genMiddle emptyParse "top\n".data "\n\n".data ⟨[], [], []⟩ false ++ END_MARKER) ≠ [] :=
  strip_crash_after_partial_write emptyParse allBlankTailManifest ⟨[], [], []⟩ false
    "top\n".data "m".data "\n\n".data (by decide) rfl (by decide)

/-! ### Claim C6: the no-op transition -/

/-- C6: whenever the staged document generated by `CreateNewManifest` is
byte-for-byte identical to the live manifest, `IsNewManifestDifferent` is
false and `PerformUpdate` ends successfully without invoking the trial
checkout or the push; the comparison is plain byte equality with no
normalization. -/
theorem noop_when_staged_identical (parse : ParseFn) (doc : List Char) (deps : DepsInputs)
    (internal : Bool)
    (h : (createNewManifest parse doc deps internal).2 = Except.ok doc) :
    isNewManifestDifferent doc doc = false ∧
    performUpdate parse doc deps internal = ([], Except.ok ()) ∧
    UpdateAction.trialSync ∉ (performUpdate parse doc deps internal).1 ∧
    UpdateAction.push ∉ (performUpdate parse doc deps internal).1 ∧
    (∀ a b : List Char, isNewManifestDifferent a b = false ↔ a = b) := by
  have hdiff : isNewManifestDifferent doc doc = false := by
    simp [isNewManifestDifferent]
  have hperf : performUpdate parse doc deps internal = ([], Except.ok ()) := by
    simp only [performUpdate, h, hdiff]
    rfl
  refine ⟨hdiff, hperf, ?_, ?_, ?_⟩
  · rw [hperf]; simp
  · rw [hperf]; simp
  · intro a b
    simp [isNewManifestDifferent]

/-- Witness for C6: `noopManifest` is a fixed point of the builder, so a
re-run on it is a no-op. -/
theorem noop_when_staged_identical_witness :
    isNewManifestDifferent noopManifest noopManifest = false ∧
    performUpdate emptyParse noopManifest ⟨[], [], []⟩ false = ([], Except.ok ()) ∧
    UpdateAction.trialSync ∉ (performUpdate emptyParse noopManifest ⟨[], [], []⟩ false).1 ∧
    UpdateAction.push ∉ (performUpdate emptyParse noopManifest ⟨[], [], []⟩ false).1 ∧
    (∀ a b : List Char, isNewManifestDifferent a b = false ↔ a = b) :=
  noop_when_staged_identical emptyParse noopManifest ⟨[], [], []⟩ false rfl

/-! ### Properties of the stable sort and the converter -/

theorem insertSorted_perm (le : α → α → Bool) (x : α) (l : List α) :
    List.Perm (insertSorted le x l) (x :: l) := by
  induction l with
  | nil => simp [insertSorted]
  | cons y ys ih =>
    simp only [insertSorted]
    split
    · exact List.Perm.refl _
    · exact (ih.cons y).trans (List.Perm.swap x y ys)

theorem insertionSort_perm (le : α → α → Bool) (l : List α) :
    List.Perm (insertionSort le l) l := by
  induction l with
  | nil => exact List.Perm.refl _
  | cons x xs ih => exact (insertSorted_perm le x _).trans (ih.cons x)

theorem sortMappings_perm (mappings : List (String × String)) :
    List.Perm (sortMappings mappings) mappings :=
  insertionSort_perm _ mappings

theorem convertGo_filter_of_seen {blacklist : List String} {P : String} :
    ∀ (l : List (String × String)) (previous : List String),
      previous.contains P = true →
      (convertGo blacklist l previous).1.filter (fun en => en.2 == P) = [] := by
  intro l
  induction l with
  | nil => intro previous _; rfl
  | cons m rest ih =>
    intro previous hprev
    simp only [convertGo]
    by_cases hb : blacklist.contains m.2 = true
    · rw [if_pos hb]
      exact ih previous hprev
    · rw [if_neg hb]
      by_cases hp : previous.contains m.2 = true
      · rw [if_pos hp]
        exact ih previous hprev
      · rw [if_neg hp]
        have hmP : (m.2 == P) = false := by
          rw [beq_eq_false_iff_ne]
          intro hcontra
          rw [hcontra] at hp
          exact hp hprev
        rw [List.filter_cons_of_neg (by simp [hmP])]
        apply ih
        rw [List.contains_cons]
        rw [hprev, Bool.or_true]

theorem convertGo_filter_of_blacklisted {blacklist : List String} {P : String}
    (hbl : blacklist.contains P = true) :
    ∀ (l : List (String × String)) (previous : List String),
      (convertGo blacklist l previous).1.filter (fun en => en.2 == P) = [] := by
  intro l
  induction l with
  | nil => intro previous; rfl
  | cons m rest ih =>
    intro previous
    simp only [convertGo]
    by_cases hb : blacklist.contains m.2 = true
    · rw [if_pos hb]
      exact ih previous
    · rw [if_neg hb]
      have hmP : (m.2 == P) = false := by
        rw [beq_eq_false_iff_ne]
        intro hcontra
        rw [hcontra] at hb
        exact hb hbl
      by_cases hp : previous.contains m.2 = true
      · rw [if_pos hp]
        exact ih previous
      · rw [if_neg hp]
        rw [List.filter_cons_of_neg (by simp [hmP])]
        exact ih _

theorem firstEmittedFor_cons_of_ne {P : String} {m : String × String}
    {rest : List (String × String)} (h : (m.2 == P) = false) :
    firstEmittedFor P (m :: rest) = firstEmittedFor P rest := by
  unfold firstEmittedFor
  rw [List.filter_cons_of_neg (by simp [h])]

theorem convertGo_filter_eq {blacklist : List String} {P : String}
    (hbl : blacklist.contains P = false) :
    ∀ (l : List (String × String)) (previous : List String),
      previous.contains P = false →
      (convertGo blacklist l previous).1.filter (fun en => en.2 == P) =
        firstEmittedFor P l := by
  intro l
  induction l with
  | nil => intro previous _; rfl
  | cons m rest ih =>
    intro previous hprev
    simp only [convertGo]
    by_cases hb : blacklist.contains m.2 = true
    · have hmP : (m.2 == P) = false := by
        rw [beq_eq_false_iff_ne]
        intro hcontra
        rw [hcontra] at hb
        rw [hb] at hbl
        cases hbl
      rw [if_pos hb, firstEmittedFor_cons_of_ne hmP]
      exact ih previous hprev
    · rw [if_neg hb]
      by_cases hp : previous.contains m.2 = true
      · have hmP : (m.2 == P) = false := by
          rw [beq_eq_false_iff_ne]
          intro hcontra
          rw [hcontra] at hp
          rw [hp] at hprev
          cases hprev
        rw [if_pos hp, firstEmittedFor_cons_of_ne hmP]
        exact ih previous hprev
      · rw [if_neg hp]
        by_cases hmP : m.2 = P
        · subst hmP
          rw [List.filter_cons_of_pos (by exact beq_self_eq_true m.2)]
          have hseen : (convertGo blacklist rest (m.2 :: previous)).1.filter
              (fun en => en.2 == m.2) = [] := by
            apply convertGo_filter_of_seen
            rw [List.contains_cons]
            rw [beq_self_eq_true]
            rfl
          rw [hseen]
          unfold firstEmittedFor
          rw [List.filter_cons_of_pos (by exact beq_self_eq_true m.2)]
        · have hmP' : (m.2 == P) = false := beq_eq_false_iff_ne.mpr hmP
          rw [List.filter_cons_of_neg (by simp [hmP']), firstEmittedFor_cons_of_ne hmP']
          apply ih
          rw [List.contains_cons]
          have : (P == m.2) = false := beq_eq_false_iff_ne.mpr (fun hc => hmP hc.symm)
          rw [this, hprev]
          rfl

theorem convertGo_double_warnings {blacklist : List String} {P : String}
    (hbl : blacklist.contains P = false) :
    ∀ (l : List (String × String)) (previous : List String),
      (convertGo blacklist l previous).2.countP (isDoubleCheckoutFor P) =
        (if previous.contains P = true then l.countP (fun x => x.2 == P)
         else l.countP (fun x => x.2 == P) - 1) := by
  intro l
  induction l with
  | nil =>
    intro previous
    by_cases hp : previous.contains P = true
    · rw [if_pos hp]; rfl
    · rw [if_neg hp]; rfl
  | cons m rest ih =>
    intro previous
    simp only [convertGo]
    by_cases hb : blacklist.contains m.2 = true
    · have hmP : (m.2 == P) = false := by
        rw [beq_eq_false_iff_ne]
        intro hc
        rw [hc] at hb
        rw [hb] at hbl
        cases hbl
      rw [if_pos hb, List.countP_cons, List.countP_cons]
      have hski : isDoubleCheckoutFor P (ConvWarning.skippedBlacklisted m.2) = false := rfl
      rw [hski, hmP]
      simp only [Bool.false_eq_true, if_false, Nat.add_zero]
      exact ih previous
    · rw [if_neg hb]
      by_cases hp : previous.contains m.2 = true
      · rw [if_pos hp, List.countP_cons, List.countP_cons]
        have hdc : isDoubleCheckoutFor P
            (ConvWarning.doubleCheckout m.2 (osJoin "chromium" m.1)) = (m.2 == P) := rfl
        rw [hdc]
        have hih := ih previous
        by_cases hmP : m.2 = P
        · have hpc : previous.contains P = true := by rw [← hmP]; exact hp
          rw [if_pos hpc] at hih ⊢
          rw [hih]
        · have hmP' : (m.2 == P) = false := beq_eq_false_iff_ne.mpr hmP
          rw [hmP'] at *
          simp only [Bool.false_eq_true, if_false, Nat.add_zero]
          exact hih
      · rw [if_neg hp, List.countP_cons]
        have hih := ih (m.2 :: previous)
        by_cases hmP : m.2 = P
        · have hpc : previous.contains P = false := by
            rw [← hmP]
            cases hcp : previous.contains m.2
            · rfl
            · exact absurd hcp hp
          have hseen : (m.2 :: previous).contains P = true := by
            rw [List.contains_cons]
            rw [show (P == m.2) = true from beq_iff_eq.mpr hmP.symm]
            rfl
          rw [if_pos hseen] at hih
          rw [if_neg (by rw [hpc]; exact Bool.false_ne_true)]
          rw [hih]
          rw [show (m.2 == P) = true from beq_iff_eq.mpr hmP]
          simp only [if_true]
          omega
        · have hmP' : (m.2 == P) = false := beq_eq_false_iff_ne.mpr hmP
          have hcons : (m.2 :: previous).contains P = previous.contains P := by
            rw [List.contains_cons]
            rw [show (P == m.2) = false from beq_eq_false_iff_ne.mpr (fun hc => hmP hc.symm)]
            rfl
          rw [hcons] at hih
          rw [hih, hmP']
          simp only [Bool.false_eq_true, if_false, Nat.add_zero]

theorem convertGo_skip_warning_mem {blacklist : List String} {P : String}
    (hbl : blacklist.contains P = true) :
    ∀ (l : List (String × String)) (previous : List String),
      (∃ m ∈ l, m.2 = P) →
      ConvWarning.skippedBlacklisted P ∈ (convertGo blacklist l previous).2 := by
  intro l
  induction l with
  | nil =>
    intro previous h
    obtain ⟨m, hm, _⟩ := h
    cases hm
  | cons m rest ih =>
    intro previous h
    simp only [convertGo]
    obtain ⟨m0, hm0, hm0P⟩ := h
    rcases List.mem_cons.mp hm0 with hm0m | hm0rest
    · subst hm0m
      rw [if_pos (by rw [hm0P]; exact hbl)]
      rw [hm0P]
      exact List.mem_cons_self _ _
    · by_cases hb : blacklist.contains m.2 = true
      · rw [if_pos hb]
        exact List.mem_cons_of_mem _ (ih previous ⟨m0, hm0rest, hm0P⟩)
      · rw [if_neg hb]
        by_cases hp : previous.contains m.2 = true
        · rw [if_pos hp]
          exact List.mem_cons_of_mem _ (ih previous ⟨m0, hm0rest, hm0P⟩)
        · rw [if_neg hp]
          exact ih (m.2 :: previous) ⟨m0, hm0rest, hm0P⟩

/-! ### Claim C3: duplicate checkouts -/

/-- C3: when the mapping holds exactly two relative paths for the same
project id `P` (and `P` is not blacklisted), the converter emits exactly one
entry for `P` — the first one encountered in project-id sort order — and
logs exactly one "double checkout" warning; the converter is a total
function, so the warning never aborts the pass. -/
theorem converter_double_checkout (blacklist : List String)
    (mappings : List (String × String)) (P : String)
    (hbl : blacklist.contains P = false)
    (hcount : mappings.countP (fun x => x.2 == P) = 2) :
    ((convertEntries blacklist mappings).1.filter (fun en => en.2 == P)).length = 1 ∧
    (convertEntries blacklist mappings).1.filter (fun en => en.2 == P) =
      firstEmittedFor P (sortMappings mappings) ∧
    (convertEntries blacklist mappings).2.countP (isDoubleCheckoutFor P) = 1 := by
  have hperm := sortMappings_perm mappings
  have hcount2 : (sortMappings mappings).countP (fun x => x.2 == P) = 2 := by
    rw [hperm.countP_eq]
    exact hcount
  have hfe := convertGo_filter_eq hbl (sortMappings mappings) [] rfl
  have hlen : (firstEmittedFor P (sortMappings mappings)).length = 1 := by
    unfold firstEmittedFor
    cases hf : (sortMappings mappings).filter (fun x => x.2 == P) with
    | nil =>
      rw [List.countP_eq_length_filter, hf] at hcount2
      cases hcount2
    | cons hd tl => rfl
  refine ⟨?_, hfe, ?_⟩
  · simp only [convertEntries]
    rw [hfe]
    exact hlen
  · simp only [convertEntries]
    rw [convertGo_double_warnings hbl (sortMappings mappings) []]
    rw [if_neg (show ¬(([] : List String).contains P = true) from fun h => Bool.false_ne_true h), hcount2]

/-- Witness for C3: two paths map to `proj/p`; one entry, one warning. -/
theorem converter_double_checkout_witness :
    ((convertEntries [] [("b", "proj/p"), ("a", "proj/p"), ("c", "other/q")]).1.filter
      (fun en => en.2 == "proj/p")).length = 1 ∧
    (convertEntries [] [("b", "proj/p"), ("a", "proj/p"), ("c", "other/q")]).1.filter
      (fun en => en.2 == "proj/p") =
      firstEmittedFor "proj/p"
        (sortMappings [("b", "proj/p"), ("a", "proj/p"), ("c", "other/q")]) ∧
    (convertEntries [] [("b", "proj/p"), ("a", "proj/p"), ("c", "other/q")]).2.countP
      (isDoubleCheckoutFor "proj/p") = 1 :=
  converter_double_checkout [] [("b", "proj/p"), ("a", "proj/p"), ("c", "other/q")]
    "proj/p" rfl (by decide)

/-! ### Claim C4: blacklist filtering -/

/-- C4: when project id `P` is blacklisted and occurs in the mapping, the
converter's output holds no entry named `P`, a skip warning for `P` is
logged, and processing continues: every non-blacklisted project of the
mapping still gets an entry. -/
theorem converter_blacklist_filtering (blacklist : List String)
    (mappings : List (String × String)) (P : String)
    (hbl : blacklist.contains P = true)
    (hocc : ∃ m ∈ mappings, m.2 = P) :
    (convertEntries blacklist mappings).1.filter (fun en => en.2 == P) = [] ∧
    ConvWarning.skippedBlacklisted P ∈ (convertEntries blacklist mappings).2 ∧
    (∀ Q, blacklist.contains Q = false → (∃ m ∈ mappings, m.2 = Q) →
      ∃ en ∈ (convertEntries blacklist mappings).1, en.2 = Q) := by
  have hperm := sortMappings_perm mappings
  refine ⟨?_, ?_, ?_⟩
  · exact convertGo_filter_of_blacklisted hbl (sortMappings mappings) []
  · apply convertGo_skip_warning_mem hbl (sortMappings mappings) []
    obtain ⟨m, hm, hmP⟩ := hocc
    exact ⟨m, hperm.mem_iff.mpr hm, hmP⟩
  · intro Q hQbl hQocc
    have hfe := convertGo_filter_eq hQbl (sortMappings mappings) [] rfl
    obtain ⟨m, hm, hmQ⟩ := hQocc
    have hmem : m ∈ (sortMappings mappings).filter (fun x => x.2 == Q) := by
      rw [List.mem_filter]
      exact ⟨hperm.mem_iff.mpr hm, by rw [hmQ]; exact beq_self_eq_true Q⟩
    cases hf : (sortMappings mappings).filter (fun x => x.2 == Q) with
    | nil =>
      rw [hf] at hmem
      cases hmem
    | cons hd tl =>
      have hfe2 : (convertEntries blacklist mappings).1.filter (fun en => en.2 == Q) =
          [(osJoin "chromium" hd.1, Q)] := by
        simp only [convertEntries]
        rw [hfe]
        unfold firstEmittedFor
        rw [hf]
      refine ⟨(osJoin "chromium" hd.1, Q), ?_, rfl⟩
      have hmem2 : (osJoin "chromium" hd.1, Q) ∈
          (convertEntries blacklist mappings).1.filter (fun en => en.2 == Q) := by
        rw [hfe2]
        exact List.mem_cons_self _ _
      exact List.mem_of_mem_filter hmem2

/-- Witness for C4: `bad/p` is blacklisted and mapped; `good/q` is not. -/
theorem converter_blacklist_filtering_witness :
    (convertEntries ["bad/p"] [("x", "bad/p"), ("y", "good/q")]).1.filter
      (fun en => en.2 == "bad/p") = [] ∧
    ConvWarning.skippedBlacklisted "bad/p" ∈
      (convertEntries ["bad/p"] [("x", "bad/p"), ("y", "good/q")]).2 ∧
    (∀ Q, (["bad/p"] : List String).contains Q = false →
      (∃ m ∈ [("x", "bad/p"), ("y", "good/q")], m.2 = Q) →
      ∃ en ∈ (convertEntries ["bad/p"] [("x", "bad/p"), ("y", "good/q")]).1, en.2 = Q) :=
  converter_blacklist_filtering ["bad/p"] [("x", "bad/p"), ("y", "good/q")] "bad/p"
    (by decide) (by decide)

/-! ### Claim C9: determinism of the builder -/

/-- C9: two runs of the builder on identical inputs (same live manifest
bytes, same dependency mappings — duplicate project ids included — same
parser and same internal flag) produce byte-identical staged documents and
identical outcomes; the model threads all state explicitly, so the builder
has no hidden source of nondeterminism. -/
theorem builder_determinism (parse : ParseFn) (doc1 doc2 : List Char)
    (deps1 deps2 : DepsInputs) (internal1 internal2 : Bool)
    (hdoc : doc1 = doc2) (hdeps : deps1 = deps2) (hint : internal1 = internal2) :
    createNewManifest parse doc1 deps1 internal1 =
      createNewManifest parse doc2 deps2 internal2 := by
  subst hdoc
  subst hdeps
  subst hint
  rfl

/-- Witness for C9 on a mapping where two distinct paths share a project id. -/
theorem builder_determinism_witness :
    createNewManifest emptyParse sampleManifest
      ⟨[("a", "dup/p"), ("b", "dup/p")], [], []⟩ false =
    createNewManifest emptyParse sampleManifest
      ⟨[("a", "dup/p"), ("b", "dup/p")], [], []⟩ false :=
  builder_determinism emptyParse sampleManifest sampleManifest _ _ false false rfl rfl rfl
